import Mathlib

/-!
# gitlab-get-changed-files: classification of the diff entries of a branch comparison

A shallow embedding of `src/main.go`.  The program reads four command-line
flags and the credential `GITLAB_API_TOKEN`, asks the remote service for the
comparison of two branches, and walks once over the returned diff entries,
filling fifteen accumulators that become the fields of the printed `Output`.

* `Diff` holds the fields of `gitlab.Diff` that the loop reads.
* `Output` is the struct of `main.go` lines 13-29.
* `initial` is the accumulator state of lines 66-80, `loopBody` one turn of
  the loop of lines 82-122, and `classify` the whole loop.
* `Ext` is `path/filepath.Ext` of the Go standard library (Unix build).
* `main` is the control flow of lines 31-148 as a function from the flags,
  the credential and the two remote operations to the trace of effects.
* `combine` and `specExtension` are definitions of the specification, each
  compared with the program's own computation.

Go strings are byte strings; paths are modelled as `String`.  The two bytes
`Ext` looks for, `/` and `.`, are ASCII and never occur inside a multi-byte
UTF-8 sequence, so scanning characters and scanning bytes cut a valid UTF-8
path at the same place.
-/

namespace GitlabChangedFiles

/-! ## Data model -/

/-- The fields of `gitlab.Diff` read by the loop of `main` (lines 82-122).
The slice `compare.Diffs` holds pointers to such records; `classify` is the
loop over the records themselves, and `rangeDiffs` the loop over the
pointers, a nil one included. -/
structure Diff where
  OldPath : String
  NewPath : String
  NewFile : Bool
  RenamedFile : Bool
  DeletedFile : Bool
deriving DecidableEq, Repr

/-- The struct `Output` of `main.go` lines 13-29, field for field. -/
structure Output where
  AllFiles : List String
  AddedAndChangedFiles : List String
  AddedFiles : List String
  ChangedFiles : List String
  DeletedFiles : List String
  RenamedFiles : List String
  AnyAdded : Bool
  AnyChanged : Bool
  AnyDeleted : Bool
  AnyRenamed : Bool
  OnlyAdded : Bool
  OnlyChanged : Bool
  OnlyDeleted : Bool
  OnlyRenamed : Bool
  TypeChangedFiles : List String
deriving DecidableEq, Repr

/-! ## `filepath.Ext` -/

/-- The Unix `os.IsPathSeparator`: only the slash separates path segments. -/
def IsPathSeparator (c : Char) : Bool := c == '/'

/-- The loop of `filepath.Ext`, walking the path from its last character
towards the first.  The first argument is the part of the path not yet
visited, reversed, so that its head is `path[i]`; the second is `path[i+1:]`.
The walk stops with the empty extension at a separator or at the start of
the path, and with `path[i:]` at the first dot it meets. -/
def extLoop : List Char → List Char → List Char
  | [], _ => []
  | c :: before, after =>
    if IsPathSeparator c then []
    else if c = '.' then c :: after
    else extLoop before (c :: after)

/-- Modelled from the spec: `filepath.Ext` of the Go standard library, which
lines 117-118 call, is not among the sources.  The specification gives its
result as the substring from the last dot to the end of the final path
segment, or the empty string if there is none; the definition computes it
the way the library function does, by one walk from the end of the path
(`extLoop`, with the separator of the Unix build). -/
def Ext (path : String) : String := ⟨extLoop path.data.reverse []⟩

/-! ## The classification loop -/

/-- The accumulators as declared before the loop (lines 66-80): empty lists,
the `any` flags false, the `only` flags true. -/
def initial : Output :=
  { AllFiles := []
    AddedAndChangedFiles := []
    AddedFiles := []
    ChangedFiles := []
    DeletedFiles := []
    RenamedFiles := []
    AnyAdded := false
    AnyChanged := false
    AnyDeleted := false
    AnyRenamed := false
    OnlyAdded := true
    OnlyChanged := true
    OnlyDeleted := true
    OnlyRenamed := true
    TypeChangedFiles := [] }

/-- The local `changedFile` of line 83. -/
def changedFile (d : Diff) : Bool :=
  !d.DeletedFile && !d.NewFile && !d.RenamedFile

/-- The guarded `append` of the loop body: `xs = append(xs, p)` under `if c`. -/
def appendIf (c : Bool) (xs : List String) (p : String) : List String :=
  if c then xs ++ [p] else xs

/-- One turn of the loop of lines 82-122 on the entry `d`. -/
def loopBody (o : Output) (d : Diff) : Output :=
  { AllFiles := o.AllFiles ++ [d.NewPath]
    AddedAndChangedFiles := appendIf (changedFile d || d.NewFile) o.AddedAndChangedFiles d.NewPath
    AddedFiles := appendIf d.NewFile o.AddedFiles d.NewPath
    ChangedFiles := appendIf (changedFile d) o.ChangedFiles d.NewPath
    DeletedFiles := appendIf d.DeletedFile o.DeletedFiles d.NewPath
    RenamedFiles := appendIf d.RenamedFile o.RenamedFiles d.NewPath
    AnyAdded := o.AnyAdded || d.NewFile
    AnyChanged := o.AnyChanged || changedFile d
    AnyDeleted := o.AnyDeleted || d.DeletedFile
    AnyRenamed := o.AnyRenamed || d.RenamedFile
    OnlyAdded := o.OnlyAdded && d.NewFile
    OnlyChanged := o.OnlyChanged && changedFile d
    OnlyDeleted := o.OnlyDeleted && d.DeletedFile
    OnlyRenamed := o.OnlyRenamed && d.RenamedFile
    TypeChangedFiles := appendIf (Ext d.OldPath != Ext d.NewPath) o.TypeChangedFiles d.NewPath }

/-- The loop of lines 82-122 run from an arbitrary accumulator state. -/
def runLoop (o : Output) (Diffs : List Diff) : Output :=
  Diffs.foldl loopBody o

/-- The report built by lines 66-140 from the entries of the comparison. -/
def classify (Diffs : List Diff) : Output :=
  runLoop initial Diffs

/-- The entry `d` has its `NewPath` appended to a list during its turn of the
loop: `before` is the list when the turn starts, `after` when it ends. -/
def appendedTo (before after : List String) (d : Diff) : Bool :=
  after == before ++ [d.NewPath]

/-- The number of the three lists `AddedFiles`, `ChangedFiles`,
`DeletedFiles` that the entry `d` is appended to in its turn of the loop,
the turn starting in state `o`. -/
def trichotomyCount (o : Output) (d : Diff) : Nat :=
  (appendedTo o.AddedFiles (loopBody o d).AddedFiles d).toNat +
  (appendedTo o.ChangedFiles (loopBody o d).ChangedFiles d).toNat +
  (appendedTo o.DeletedFiles (loopBody o d).DeletedFiles d).toNat

/-- At most one of the flags `NewFile`, `DeletedFile`, `RenamedFile` of the
entry is set. -/
def mutuallyExclusive (d : Diff) : Bool :=
  d.NewFile.toNat + d.DeletedFile.toNat + d.RenamedFile.toNat ≤ 1

/-- An entry whose only set flag is `RenamedFile`. -/
def renamedOnlyEntry : Diff :=
  { OldPath := "old.txt", NewPath := "new.txt",
    NewFile := false, RenamedFile := true, DeletedFile := false }

/-! ## The run of `main` -/

/-- The four flags parsed by lines 32-42. -/
structure Flags where
  sourceBranch : String
  targetBranch : String
  isStraight : Bool
  projectId : Int
deriving DecidableEq, Repr

/-- The fields of `gitlab.CompareOptions` set at lines 53-57. -/
structure CompareOptions where
  From : String
  To : String
  Straight : Bool
deriving DecidableEq, Repr

/-- The two operations of the GitLab client library that `main` calls.  An
`error` is represented by its text, which is what `%v` prints.  A successful
comparison yields the slice `compare.Diffs` of pointers to `gitlab.Diff`:
`some d` is a pointer to the record `d`, `none` the nil pointer. -/
structure Remote (Client : Type) where
  NewClient : String → Except String Client
  Compare : Client → Int → CompareOptions → Except String (List (Option Diff))

/-- What a run does that is visible outside the process, in program order:
the construction of the client, the comparison request sent to the remote
service, a `log.Fatal`/`log.Fatalf` message, the report printed on standard
output, the run-time panic of a nil dereference (reported on standard
error). -/
inductive Effect where
  | NewClient (gitlabApiToken : String)
  | Compare (projectId : Int) (co : CompareOptions)
  | Fatal (message : String)
  | Println (content : Output)
  | Panic (message : String)
deriving DecidableEq, Repr

/-- The effect is a comparison request. -/
def Effect.isCompare : Effect → Bool
  | Effect.Compare _ _ => true
  | _ => false

/-- The effect is a fatal log message. -/
def Effect.isFatal : Effect → Bool
  | Effect.Fatal _ => true
  | _ => false

/-- The effect writes to standard output. -/
def Effect.isPrintln : Effect → Bool
  | Effect.Println _ => true
  | _ => false

/-- A finished run: its effects in order and the exit status of the process
(`log.Fatal` exits with status 1, an unrecovered panic with 2, falling off
the end of `main` with 0). -/
structure Run where
  effects : List Effect
  exitCode : Nat
deriving DecidableEq, Repr

/-- The message of the `log.Fatal` of line 45. -/
def missingTokenMessage : String := "Variable \x27GITLAB_API_TOKEN\x27 must be set."

/-- The message of the `log.Fatalf` of line 50. -/
def clientFailedMessage (err : String) : String :=
  "Failed to create client: " ++ err

/-- The message of the `log.Fatalf` of lines 60-62. -/
def compareFailedMessage (sourceBranch targetBranch err : String) : String :=
  "Failed to compare " ++ sourceBranch ++ " with " ++ targetBranch ++
    ". Ensure both branches exist. Error: " ++ err

/-- The text of the run-time error raised by reading a field through a nil
pointer. -/
def nilDereferenceMessage : String :=
  "runtime error: invalid memory address or nil pointer dereference"

/-- The loop of lines 82-122 over the slice of pointers `compare.Diffs`,
from the accumulator state `o`.  Line 83 reads `d.DeletedFile` with no nil
check, so the turn on a nil pointer panics and the loop yields no report
(`none`); the turn on a pointer to a record is `loopBody`. -/
def rangeDiffs (o : Output) : List (Option Diff) → Option Output
  | [] => some o
  | none :: _ => none
  | some d :: rest => rangeDiffs (loopBody o d) rest

/-- The function `main` (lines 31-148) after `flag.Parse`: the credential
check, the construction of the client, the comparison request, the
classification loop and the printing of the report.  A nil entry in the
answer ends the run in the loop by a panic, before anything is printed.  The
report is printed as the `Output` value; its JSON rendering is not modelled.
The `panic` of line 144 has no branch here: `json.MarshalIndent` returns no
error for a struct whose fields are string slices and booleans. -/
def main {Client : Type} (remote : Remote Client) (flags : Flags)
    (gitlabApiToken : String) : Run :=
  if gitlabApiToken = "" then
    { effects := [Effect.Fatal missingTokenMessage], exitCode := 1 }
  else
    match remote.NewClient gitlabApiToken with
    | Except.error err =>
      { effects := [Effect.NewClient gitlabApiToken,
                    Effect.Fatal (clientFailedMessage err)],
        exitCode := 1 }
    | Except.ok git =>
      let co : CompareOptions :=
        { From := flags.sourceBranch, To := flags.targetBranch, Straight := flags.isStraight }
      match remote.Compare git flags.projectId co with
      | Except.error err =>
        { effects := [Effect.NewClient gitlabApiToken,
                      Effect.Compare flags.projectId co,
                      Effect.Fatal (compareFailedMessage flags.sourceBranch flags.targetBranch err)],
          exitCode := 1 }
      | Except.ok Diffs =>
        match rangeDiffs initial Diffs with
        | none =>
          { effects := [Effect.NewClient gitlabApiToken,
                        Effect.Compare flags.projectId co,
                        Effect.Panic nilDereferenceMessage],
            exitCode := 2 }
        | some output =>
          { effects := [Effect.NewClient gitlabApiToken,
                        Effect.Compare flags.projectId co,
                        Effect.Println output],
            exitCode := 0 }

/-- A remote service that accepts every credential and answers every
comparison with the same two entries. -/
def sampleRemote : Remote Unit :=
  { NewClient := fun _ => Except.ok ()
    Compare := fun _ _ _ => Except.ok
      [some { OldPath := "a.txt", NewPath := "a.txt", NewFile := false,
              RenamedFile := false, DeletedFile := false },
       some { OldPath := "b.py", NewPath := "b.py", NewFile := true,
              RenamedFile := false, DeletedFile := false }] }

/-- Flags of a sample invocation. -/
def sampleFlags : Flags :=
  { sourceBranch := "feature", targetBranch := "main", isStraight := false, projectId := 42 }

/-- A remote service that accepts every credential and fails every
comparison with the same error. -/
def failingRemote : Remote Unit :=
  { NewClient := fun _ => Except.ok ()
    Compare := fun _ _ _ => Except.error "404 Project Not Found" }

/-- A remote service whose client cannot be constructed. -/
def brokenRemote : Remote Unit :=
  { NewClient := fun _ => Except.error "invalid base URL"
    Compare := fun _ _ _ => Except.ok [] }

/-- A remote service that accepts every credential and answers every
comparison successfully with one entry followed by a nil one. -/
def nullEntryRemote : Remote Unit :=
  { NewClient := fun _ => Except.ok ()
    Compare := fun _ _ _ => Except.ok
      [some { OldPath := "a.txt", NewPath := "a.txt", NewFile := false,
              RenamedFile := false, DeletedFile := false },
       none] }

/-- The reports a run writes to standard output, in order. -/
def Run.printed (r : Run) : List Effect :=
  r.effects.filter Effect.isPrintln

/-- The number of the four lists `AddedFiles`, `ChangedFiles`,
`DeletedFiles`, `RenamedFiles` that the entry `d` is appended to in its turn
of the loop, the turn starting in state `o`. -/
def categoryCount (o : Output) (d : Diff) : Nat :=
  trichotomyCount o d +
    (appendedTo o.RenamedFiles (loopBody o d).RenamedFiles d).toNat

/-- An entry flagged both new and renamed. -/
def newAndRenamedEntry : Diff :=
  { OldPath := "draft.txt", NewPath := "final.txt",
    NewFile := true, RenamedFile := true, DeletedFile := false }

/-- An entry with no flag set. -/
def plainChangedEntry : Diff :=
  { OldPath := "a.txt", NewPath := "a.txt",
    NewFile := false, RenamedFile := false, DeletedFile := false }

/-- The final `/`-separated segment of a path, in the words of the
specification: what follows the last slash, the whole path when it has no
slash. -/
def finalSegment (path : List Char) : List Char :=
  (path.reverse.takeWhile (fun c => c != '/')).reverse

/-- The suffix of a segment that starts at its last dot, in the words of the
specification; the empty list when the segment has no dot. -/
def lastDotSuffix (segment : List Char) : List Char :=
  if '.' ∈ segment then
    '.' :: (segment.reverse.takeWhile (fun c => c != '.')).reverse
  else []

/-- The extension of a path as the specification words it: the suffix
starting at the last dot of the final segment.  It is a definition of the
specification, to be compared with `Ext`. -/
def specExtension (path : String) : String :=
  ⟨lastDotSuffix (finalSegment path.data)⟩

/-- The combination of two reports named by the specification of the
classifier as entry-wise independent: every list field is the concatenation
of the two fields, every `Any` flag their logical or, every `Only` flag
their logical and.  It is a definition of the specification, not of the
program. -/
def combine (a b : Output) : Output :=
  { AllFiles := a.AllFiles ++ b.AllFiles
    AddedAndChangedFiles := a.AddedAndChangedFiles ++ b.AddedAndChangedFiles
    AddedFiles := a.AddedFiles ++ b.AddedFiles
    ChangedFiles := a.ChangedFiles ++ b.ChangedFiles
    DeletedFiles := a.DeletedFiles ++ b.DeletedFiles
    RenamedFiles := a.RenamedFiles ++ b.RenamedFiles
    AnyAdded := a.AnyAdded || b.AnyAdded
    AnyChanged := a.AnyChanged || b.AnyChanged
    AnyDeleted := a.AnyDeleted || b.AnyDeleted
    AnyRenamed := a.AnyRenamed || b.AnyRenamed
    OnlyAdded := a.OnlyAdded && b.OnlyAdded
    OnlyChanged := a.OnlyChanged && b.OnlyChanged
    OnlyDeleted := a.OnlyDeleted && b.OnlyDeleted
    OnlyRenamed := a.OnlyRenamed && b.OnlyRenamed
    TypeChangedFiles := a.TypeChangedFiles ++ b.TypeChangedFiles }

/-! ## The accumulators in closed form

Each list accumulator grows by a guarded `append`, each `any` flag by `||`
and each `only` flag by `&&`; the three lemmas below unroll the loop for an
accumulator of each shape, from an arbitrary starting state. -/

theorem runLoop_nil (o : Output) : runLoop o [] = o := rfl

theorem runLoop_cons (o : Output) (d : Diff) (ds : List Diff) :
    runLoop o (d :: ds) = runLoop (loopBody o d) ds := rfl

theorem runLoop_append (o : Output) (xs ys : List Diff) :
    runLoop o (xs ++ ys) = runLoop (runLoop o xs) ys := by
  simp [runLoop, List.foldl_append]

/-- A list accumulator guarded by `p` ends as its starting value followed
by the `NewPath` of the entries satisfying `p`, in input order. -/
theorem runLoop_list (f : Output → List String) (p : Diff → Bool)
    (hf : ∀ o d, f (loopBody o d) = appendIf (p d) (f o) d.NewPath) :
    ∀ (ds : List Diff) (o : Output),
      f (runLoop o ds) = f o ++ (ds.filter p).map Diff.NewPath := by
  intro ds
  induction ds with
  | nil => intro o; simp [runLoop_nil]
  | cons d ds ih =>
    intro o
    rw [runLoop_cons, ih, hf]
    cases hp : p d <;> simp [appendIf, List.filter_cons, hp]

/-- An `any` accumulator ends as its starting value or-ed with `p` of every
entry. -/
theorem runLoop_any (f : Output → Bool) (p : Diff → Bool)
    (hf : ∀ o d, f (loopBody o d) = (f o || p d)) :
    ∀ (ds : List Diff) (o : Output), f (runLoop o ds) = (f o || ds.any p) := by
  intro ds
  induction ds with
  | nil => intro o; simp [runLoop_nil]
  | cons d ds ih =>
    intro o
    rw [runLoop_cons, ih, hf, List.any_cons, Bool.or_assoc]

/-- An `only` accumulator ends as its starting value and-ed with `p` of
every entry. -/
theorem runLoop_all (f : Output → Bool) (p : Diff → Bool)
    (hf : ∀ o d, f (loopBody o d) = (f o && p d)) :
    ∀ (ds : List Diff) (o : Output), f (runLoop o ds) = (f o && ds.all p) := by
  intro ds
  induction ds with
  | nil => intro o; simp [runLoop_nil]
  | cons d ds ih =>
    intro o
    rw [runLoop_cons, ih, hf, List.all_cons, Bool.and_assoc]

theorem classify_AllFiles (ds : List Diff) :
    (classify ds).AllFiles = ds.map Diff.NewPath := by
  have h := runLoop_list Output.AllFiles (fun _ => true) (fun _ _ => rfl) ds initial
  simpa [classify, initial] using h

theorem classify_AddedFiles (ds : List Diff) :
    (classify ds).AddedFiles = (ds.filter (fun d => d.NewFile)).map Diff.NewPath := by
  have h := runLoop_list Output.AddedFiles (fun d => d.NewFile) (fun _ _ => rfl) ds initial
  simpa [classify, initial] using h

theorem classify_ChangedFiles (ds : List Diff) :
    (classify ds).ChangedFiles = (ds.filter changedFile).map Diff.NewPath := by
  have h := runLoop_list Output.ChangedFiles changedFile (fun _ _ => rfl) ds initial
  simpa [classify, initial] using h

theorem classify_DeletedFiles (ds : List Diff) :
    (classify ds).DeletedFiles = (ds.filter (fun d => d.DeletedFile)).map Diff.NewPath := by
  have h := runLoop_list Output.DeletedFiles (fun d => d.DeletedFile) (fun _ _ => rfl) ds initial
  simpa [classify, initial] using h

theorem classify_RenamedFiles (ds : List Diff) :
    (classify ds).RenamedFiles = (ds.filter (fun d => d.RenamedFile)).map Diff.NewPath := by
  have h := runLoop_list Output.RenamedFiles (fun d => d.RenamedFile) (fun _ _ => rfl) ds initial
  simpa [classify, initial] using h

theorem classify_AddedAndChangedFiles (ds : List Diff) :
    (classify ds).AddedAndChangedFiles =
      (ds.filter (fun d => changedFile d || d.NewFile)).map Diff.NewPath := by
  have h := runLoop_list Output.AddedAndChangedFiles (fun d => changedFile d || d.NewFile)
    (fun _ _ => rfl) ds initial
  simpa [classify, initial] using h

theorem classify_TypeChangedFiles (ds : List Diff) :
    (classify ds).TypeChangedFiles =
      (ds.filter (fun d => Ext d.OldPath != Ext d.NewPath)).map Diff.NewPath := by
  have h := runLoop_list Output.TypeChangedFiles (fun d => Ext d.OldPath != Ext d.NewPath)
    (fun _ _ => rfl) ds initial
  simpa [classify, initial] using h

theorem changedFile_eq_true (d : Diff) :
    changedFile d = true ↔
      d.NewFile = false ∧ d.DeletedFile = false ∧ d.RenamedFile = false := by
  cases d with
  | mk op np n r dl => cases n <;> cases r <;> cases dl <;> simp [changedFile]

theorem classify_any (ds : List Diff) :
    (classify ds).AnyAdded = ds.any (fun d => d.NewFile) ∧
    (classify ds).AnyChanged = ds.any changedFile ∧
    (classify ds).AnyDeleted = ds.any (fun d => d.DeletedFile) ∧
    (classify ds).AnyRenamed = ds.any (fun d => d.RenamedFile) := by
  refine ⟨?_, ?_, ?_, ?_⟩
  · simpa [classify, initial] using
      runLoop_any Output.AnyAdded (fun d => d.NewFile) (fun _ _ => rfl) ds initial
  · simpa [classify, initial] using
      runLoop_any Output.AnyChanged changedFile (fun _ _ => rfl) ds initial
  · simpa [classify, initial] using
      runLoop_any Output.AnyDeleted (fun d => d.DeletedFile) (fun _ _ => rfl) ds initial
  · simpa [classify, initial] using
      runLoop_any Output.AnyRenamed (fun d => d.RenamedFile) (fun _ _ => rfl) ds initial

theorem classify_only (ds : List Diff) :
    (classify ds).OnlyAdded = ds.all (fun d => d.NewFile) ∧
    (classify ds).OnlyChanged = ds.all changedFile ∧
    (classify ds).OnlyDeleted = ds.all (fun d => d.DeletedFile) ∧
    (classify ds).OnlyRenamed = ds.all (fun d => d.RenamedFile) := by
  refine ⟨?_, ?_, ?_, ?_⟩
  · simpa [classify, initial] using
      runLoop_all Output.OnlyAdded (fun d => d.NewFile) (fun _ _ => rfl) ds initial
  · simpa [classify, initial] using
      runLoop_all Output.OnlyChanged changedFile (fun _ _ => rfl) ds initial
  · simpa [classify, initial] using
      runLoop_all Output.OnlyDeleted (fun d => d.DeletedFile) (fun _ _ => rfl) ds initial
  · simpa [classify, initial] using
      runLoop_all Output.OnlyRenamed (fun d => d.RenamedFile) (fun _ _ => rfl) ds initial

/-- Filtering by the disjunction of two predicates that never hold together
gives a list that interleaves the two separate filters. -/
theorem filter_or_perm (p q : Diff → Bool) (hpq : ∀ d, ¬ (p d = true ∧ q d = true)) :
    ∀ ds : List Diff,
      ((ds.filter (fun d => q d || p d)).map Diff.NewPath).Perm
        ((ds.filter p).map Diff.NewPath ++ (ds.filter q).map Diff.NewPath) := by
  intro ds
  induction ds with
  | nil => simp
  | cons d ds ih =>
    cases hp : p d
    · cases hq : q d
      · simpa [List.filter_cons, hp, hq] using ih
      · simp only [List.filter_cons, hp, hq, Bool.or_false, Bool.true_or, if_true,
          Bool.false_eq_true, if_false, List.map_cons]
        exact (List.Perm.cons _ ih).trans List.perm_middle.symm
    · have hq : q d = false := by
        cases hq : q d
        · rfl
        · exact absurd ⟨hp, hq⟩ (hpq d)
      simp only [List.filter_cons, hp, hq, Bool.or_true, if_true, Bool.false_eq_true,
        if_false, List.map_cons, List.cons_append]
      exact List.Perm.cons _ ih

/-- The guarded `append` of an entry is seen by `appendedTo` exactly when
the guard holds. -/
theorem appendedTo_appendIf (c : Bool) (xs : List String) (d : Diff) :
    appendedTo xs (appendIf c xs d.NewPath) d = c := by
  cases c <;> simp [appendedTo, appendIf]

/-- The list `TypeChangedFiles` of two inputs that agree entry by entry on
the two paths is the same. -/
theorem typeChanged_congr (xs ys : List Diff)
    (h : List.Forall₂ (fun a b => a.OldPath = b.OldPath ∧ a.NewPath = b.NewPath) xs ys) :
    (classify xs).TypeChangedFiles = (classify ys).TypeChangedFiles := by
  rw [classify_TypeChangedFiles, classify_TypeChangedFiles]
  induction h with
  | nil => rfl
  | cons hab _ ih =>
    simp only [List.filter_cons, hab.1, hab.2]
    split
    · simp only [List.map_cons, hab.2, ih]
    · exact ih

theorem appendIf_eq_append (c : Bool) (xs : List String) (p : String) :
    appendIf c xs p = xs ++ appendIf c [] p := by
  cases c <;> simp [appendIf]

theorem combine_assoc (a b c : Output) :
    combine (combine a b) c = combine a (combine b c) := by
  simp [combine, List.append_assoc, Bool.or_assoc, Bool.and_assoc]

theorem combine_initial_left (o : Output) : combine initial o = o := by
  cases o
  simp [combine, initial]

theorem combine_initial_right (o : Output) : combine o initial = o := by
  cases o
  simp [combine, initial]

/-- One turn of the loop from any state is the combination of that state
with the turn taken from the initial state. -/
theorem loopBody_eq_combine (o : Output) (d : Diff) :
    loopBody o d = combine o (loopBody initial d) := by
  simp only [loopBody, combine, initial, Bool.false_or, Bool.true_and, List.nil_append]
  simp only [← appendIf_eq_append]

/-- The loop from any state is the combination of that state with the loop
run from the initial state. -/
theorem runLoop_eq_combine (ds : List Diff) :
    ∀ o : Output, runLoop o ds = combine o (classify ds) := by
  induction ds with
  | nil =>
    intro o
    rw [runLoop_nil, classify, runLoop_nil, combine_initial_right]
  | cons d ds ih =>
    intro o
    have hc : classify (d :: ds) = combine (loopBody initial d) (classify ds) := by
      show runLoop initial (d :: ds) = _
      rw [runLoop_cons, ih]
    rw [runLoop_cons, ih, hc, ← combine_assoc, ← loopBody_eq_combine]

/-- Cutting a list at the first occurrence of `x`: the part before it does
not contain `x`, and either `x` does not occur and that part is the whole
list, or the list is that part, then `x`, then a rest. -/
theorem takeWhile_ne_split (x : Char) (r : List Char) :
    x ∉ r.takeWhile (fun c => c != x) ∧
    ((x ∉ r ∧ r.takeWhile (fun c => c != x) = r) ∨
      ∃ rest, r = r.takeWhile (fun c => c != x) ++ x :: rest) := by
  induction r with
  | nil => simp
  | cons c r ih =>
    by_cases hc : c = x
    · subst hc
      refine ⟨by simp [List.takeWhile_cons], Or.inr ⟨r, by simp [List.takeWhile_cons]⟩⟩
    · have hb : (c != x) = true := by simpa [bne_iff_ne] using hc
      have hx : ¬ x = c := fun h => hc h.symm
      obtain ⟨h1, h2⟩ := ih
      refine ⟨by simp [List.takeWhile_cons, hb, hx, h1], ?_⟩
      rcases h2 with ⟨hn, he⟩ | ⟨rest, he⟩
      · exact Or.inl ⟨by simp [hx, hn], by simp [List.takeWhile_cons, hb, he]⟩
      · refine Or.inr ⟨rest, ?_⟩
        simp only [List.takeWhile_cons, hb, if_true, List.cons_append]
        rw [← he]

/-- The walk of `extLoop` in closed form: with `seg` the visited part up to
the first separator, the result is empty when `seg` has no dot, and else the
dot, the characters walked over before it in path order, and `after`. -/
theorem extLoop_closed (r : List Char) :
    ∀ after : List Char,
      extLoop r after =
        if '.' ∈ r.takeWhile (fun c => c != '/') then
          '.' :: (((r.takeWhile (fun c => c != '/')).takeWhile
            (fun c => c != '.')).reverse ++ after)
        else [] := by
  induction r with
  | nil => intro after; simp [extLoop]
  | cons c r ih =>
    intro after
    by_cases hs : c = '/'
    · subst hs
      simp [extLoop, IsPathSeparator, List.takeWhile_cons]
    · by_cases hd : c = '.'
      · subst hd
        simp [extLoop, IsPathSeparator, List.takeWhile_cons]
      · have hsb : (c != '/') = true := by simpa [bne_iff_ne] using hs
        have hdb : (c != '.') = true := by simpa [bne_iff_ne] using hd
        have hd2 : ¬ '.' = c := fun h => hd h.symm
        have hsep : IsPathSeparator c = false := by simpa [IsPathSeparator] using hs
        rw [extLoop]
        simp only [hsep, hd, if_false, Bool.false_eq_true, ih, List.takeWhile_cons, hsb, hdb,
          if_true, List.mem_cons, hd2, false_or, List.reverse_cons, List.append_assoc,
          List.singleton_append]

/-- The library walk computes the extension the specification words. -/
theorem Ext_eq_specExtension (path : String) : Ext path = specExtension path := by
  simp only [Ext, specExtension, finalSegment, lastDotSuffix, extLoop_closed,
    List.mem_reverse, List.reverse_reverse, List.append_nil]

theorem any_of_all_of_ne_nil (p : Diff → Bool) :
    ∀ ds : List Diff, ds ≠ [] → ds.all p = true → ds.any p = true
  | [], h, _ => absurd rfl h
  | d :: ds, _, h => by
    rw [List.all_cons, Bool.and_eq_true] at h
    rw [List.any_cons, h.1, Bool.true_or]

/-- The number of lists an entry joins in its turn, read off its flags. -/
theorem categoryCount_eq (o : Output) (d : Diff) :
    categoryCount o d =
      d.NewFile.toNat + (changedFile d).toNat + d.DeletedFile.toNat + d.RenamedFile.toNat := by
  simp only [categoryCount, trichotomyCount, loopBody, appendedTo_appendIf]

/-- The four category filters together hold at least as many entries as the
input, and exactly as many iff no entry has two flags set. -/
theorem category_filters_length (ds : List Diff) :
    ds.length ≤
      (ds.filter (fun d => d.NewFile)).length + (ds.filter changedFile).length +
      (ds.filter (fun d => d.DeletedFile)).length +
      (ds.filter (fun d => d.RenamedFile)).length ∧
    ((ds.filter (fun d => d.NewFile)).length + (ds.filter changedFile).length +
      (ds.filter (fun d => d.DeletedFile)).length +
      (ds.filter (fun d => d.RenamedFile)).length = ds.length ↔
      ∀ d ∈ ds, mutuallyExclusive d = true) := by
  induction ds with
  | nil => simp
  | cons d ds ih =>
    obtain ⟨ih1, ih2⟩ := ih
    rw [List.forall_mem_cons, ← ih2]
    generalize hA : (ds.filter (fun d => d.NewFile)).length = A at *
    generalize hC : (ds.filter changedFile).length = C at *
    generalize hD : (ds.filter (fun d => d.DeletedFile)).length = D at *
    generalize hR : (ds.filter (fun d => d.RenamedFile)).length = R at *
    cases d with
    | mk op np n r dl =>
      cases n <;> cases r <;> cases dl <;>
        simp [List.filter_cons, changedFile, mutuallyExclusive, hA, hC, hD, hR] <;>
        omega

/-- Over pointers that are all non-nil the loop is the loop over the
records. -/
theorem rangeDiffs_map_some (ds : List Diff) :
    ∀ o : Output, rangeDiffs o (ds.map some) = some (runLoop o ds) := by
  induction ds with
  | nil => intro o; rfl
  | cons d ds ih =>
    intro o
    rw [List.map_cons, rangeDiffs, ih, runLoop_cons]

/-- A nil pointer anywhere in the slice makes the loop panic. -/
theorem rangeDiffs_of_mem_none (Ds : List (Option Diff)) :
    ∀ o : Output, none ∈ Ds → rangeDiffs o Ds = none := by
  induction Ds with
  | nil => intro o h; cases h
  | cons x Ds ih =>
    intro o h
    cases x with
    | none => rfl
    | some d =>
      rw [rangeDiffs]
      apply ih
      simpa using h

/-- A slice without nil pointer is a list of records. -/
theorem exists_map_some_of_not_mem_none (Ds : List (Option Diff)) :
    none ∉ Ds → ∃ ds : List Diff, Ds = ds.map some := by
  induction Ds with
  | nil => intro _; exact ⟨[], rfl⟩
  | cons x Ds ih =>
    intro h
    cases x with
    | none => exact absurd (List.mem_cons_self _ _) h
    | some d =>
      obtain ⟨ds, hds⟩ := ih (fun hm => h (List.mem_cons_of_mem _ hm))
      exact ⟨d :: ds, by rw [hds, List.map_cons]⟩

theorem not_mem_none_map_some (ds : List Diff) : none ∉ ds.map some := by
  simp

/-! ## The claims -/

/-- C1: for every sequence of diff entries, `AllFiles` is the list of the
entries' `NewPath` in input order: it is as long as the input and its `i`-th
element is the `NewPath` of the `i`-th entry, so no entry is skipped and
duplicates are kept. -/
theorem allFiles_mirrors_input (Diffs : List Diff) :
    (classify Diffs).AllFiles = Diffs.map Diff.NewPath ∧
    (classify Diffs).AllFiles.length = Diffs.length ∧
    ∀ (i : Nat) (h : i < Diffs.length),
      (classify Diffs).AllFiles[i]? = some (Diffs.get ⟨i, h⟩).NewPath := by
  refine ⟨classify_AllFiles Diffs, ?_, ?_⟩
  · rw [classify_AllFiles, List.length_map]
  · intro i h
    rw [classify_AllFiles]
    simp [List.getElem?_map, List.getElem?_eq_getElem h]

/-- C2: for every sequence of diff entries, `AddedFiles` is the `NewPath`
list, in input order, of exactly the entries with `NewFile` set,
`DeletedFiles` of those with `DeletedFile` set, `RenamedFiles` of those with
`RenamedFile` set, and `ChangedFiles` of those with all three flags clear. -/
theorem category_lists_filter_input (Diffs : List Diff) :
    (classify Diffs).AddedFiles =
      (Diffs.filter (fun d => d.NewFile)).map Diff.NewPath ∧
    (classify Diffs).DeletedFiles =
      (Diffs.filter (fun d => d.DeletedFile)).map Diff.NewPath ∧
    (classify Diffs).RenamedFiles =
      (Diffs.filter (fun d => d.RenamedFile)).map Diff.NewPath ∧
    (classify Diffs).ChangedFiles =
      (Diffs.filter (fun d => decide
        (d.NewFile = false ∧ d.DeletedFile = false ∧ d.RenamedFile = false))).map
        Diff.NewPath := by
  refine ⟨classify_AddedFiles Diffs, classify_DeletedFiles Diffs,
    classify_RenamedFiles Diffs, ?_⟩
  rw [classify_ChangedFiles]
  congr 1
  apply List.filter_congr
  intro d _
  rw [Bool.eq_iff_iff, decide_eq_true_iff]
  exact changedFile_eq_true d

/-- C3: for every sequence of diff entries, `AddedAndChangedFiles` is the
input-order-preserving union of `AddedFiles` and `ChangedFiles`: it is the
`NewPath` list of the entries that are new or plain-changed, no entry is both
new and plain-changed (so none contributes twice), its length is the sum of
the lengths of `AddedFiles` and `ChangedFiles`, it is a rearrangement of
their concatenation, and each of the two is a sublist of it. -/
theorem addedAndChanged_is_ordered_union (Diffs : List Diff) :
    (classify Diffs).AddedAndChangedFiles =
      (Diffs.filter (fun d => d.NewFile || changedFile d)).map Diff.NewPath ∧
    (∀ d ∈ Diffs, ¬ (d.NewFile = true ∧ changedFile d = true)) ∧
    (classify Diffs).AddedAndChangedFiles.length =
      (classify Diffs).AddedFiles.length + (classify Diffs).ChangedFiles.length ∧
    (classify Diffs).AddedAndChangedFiles.Perm
      ((classify Diffs).AddedFiles ++ (classify Diffs).ChangedFiles) ∧
    (classify Diffs).AddedFiles.Sublist (classify Diffs).AddedAndChangedFiles ∧
    (classify Diffs).ChangedFiles.Sublist (classify Diffs).AddedAndChangedFiles := by
  have hex : ∀ d : Diff, ¬ (d.NewFile = true ∧ changedFile d = true) := by
    intro d
    cases d with
    | mk op np n r dl => cases n <;> simp [changedFile]
  have hperm : (classify Diffs).AddedAndChangedFiles.Perm
      ((classify Diffs).AddedFiles ++ (classify Diffs).ChangedFiles) := by
    rw [classify_AddedAndChangedFiles, classify_AddedFiles, classify_ChangedFiles]
    exact filter_or_perm (fun d => d.NewFile) changedFile hex Diffs
  refine ⟨?_, fun d _ => hex d, ?_, hperm, ?_, ?_⟩
  · rw [classify_AddedAndChangedFiles]
    congr 1
    apply List.filter_congr
    intro d _
    exact Bool.or_comm _ _
  · rw [hperm.length_eq, List.length_append]
  · rw [classify_AddedAndChangedFiles, classify_AddedFiles]
    apply List.Sublist.map
    apply List.monotone_filter_right
    intro d hd
    simp [hd]
  · rw [classify_AddedAndChangedFiles, classify_ChangedFiles]
    apply List.Sublist.map
    apply List.monotone_filter_right
    intro d hd
    simp [hd]

/-- C4: for every sequence of diff entries, `AnyAdded` is true iff some
entry has `NewFile` set, `AnyDeleted` iff some entry has `DeletedFile` set,
`AnyRenamed` iff some entry has `RenamedFile` set, and `AnyChanged` iff some
entry has all three flags clear. -/
theorem any_flags_iff_some_entry (Diffs : List Diff) :
    ((classify Diffs).AnyAdded = true ↔ ∃ d ∈ Diffs, d.NewFile = true) ∧
    ((classify Diffs).AnyDeleted = true ↔ ∃ d ∈ Diffs, d.DeletedFile = true) ∧
    ((classify Diffs).AnyRenamed = true ↔ ∃ d ∈ Diffs, d.RenamedFile = true) ∧
    ((classify Diffs).AnyChanged = true ↔
      ∃ d ∈ Diffs, d.NewFile = false ∧ d.DeletedFile = false ∧ d.RenamedFile = false) := by
  obtain ⟨ha, hc, hd, hr⟩ := classify_any Diffs
  refine ⟨?_, ?_, ?_, ?_⟩
  · rw [ha, List.any_eq_true]
  · rw [hd, List.any_eq_true]
  · rw [hr, List.any_eq_true]
  · rw [hc, List.any_eq_true]
    constructor
    · rintro ⟨d, hm, h⟩
      exact ⟨d, hm, (changedFile_eq_true d).1 h⟩
    · rintro ⟨d, hm, h⟩
      exact ⟨d, hm, (changedFile_eq_true d).2 h⟩

/-- C5: for every sequence of diff entries, `OnlyAdded` is true iff every
entry has `NewFile` set, `OnlyDeleted` iff every entry has `DeletedFile` set,
`OnlyRenamed` iff every entry has `RenamedFile` set, and `OnlyChanged` iff
every entry has all three flags clear; and an input that contains a deleted
entry and a plain-changed entry has `OnlyDeleted` and `OnlyChanged` false. -/
theorem only_flags_iff_every_entry (Diffs : List Diff) :
    ((classify Diffs).OnlyAdded = true ↔ ∀ d ∈ Diffs, d.NewFile = true) ∧
    ((classify Diffs).OnlyDeleted = true ↔ ∀ d ∈ Diffs, d.DeletedFile = true) ∧
    ((classify Diffs).OnlyRenamed = true ↔ ∀ d ∈ Diffs, d.RenamedFile = true) ∧
    ((classify Diffs).OnlyChanged = true ↔
      ∀ d ∈ Diffs, d.NewFile = false ∧ d.DeletedFile = false ∧ d.RenamedFile = false) ∧
    (∀ x ∈ Diffs, ∀ y ∈ Diffs, x.DeletedFile = true →
      (y.NewFile = false ∧ y.DeletedFile = false ∧ y.RenamedFile = false) →
      (classify Diffs).OnlyDeleted = false ∧ (classify Diffs).OnlyChanged = false) := by
  obtain ⟨ha, hc, hd, hr⟩ := classify_only Diffs
  have hch : (classify Diffs).OnlyChanged = true ↔
      ∀ d ∈ Diffs, d.NewFile = false ∧ d.DeletedFile = false ∧ d.RenamedFile = false := by
    rw [hc, List.all_eq_true]
    constructor
    · intro h d hm
      exact (changedFile_eq_true d).1 (h d hm)
    · intro h d hm
      exact (changedFile_eq_true d).2 (h d hm)
  have hdl : (classify Diffs).OnlyDeleted = true ↔ ∀ d ∈ Diffs, d.DeletedFile = true := by
    rw [hd, List.all_eq_true]
  refine ⟨?_, hdl, ?_, hch, ?_⟩
  · rw [ha, List.all_eq_true]
  · rw [hr, List.all_eq_true]
  · intro x hx y hy hxd hyc
    constructor
    · rw [← Bool.not_eq_true]
      intro h
      have := hdl.1 h y hy
      rw [hyc.2.1] at this
      exact Bool.false_ne_true this
    · rw [← Bool.not_eq_true]
      intro h
      have := (hch.1 h x hx).2.1
      rw [hxd] at this
      exact Bool.false_ne_true this.symm

/-- C5 at the fifth scenario of the specification: one deleted entry followed
by one plain-changed entry. -/
theorem only_flags_deleted_and_changed :
    (classify [⟨"gone.txt", "gone.txt", false, false, true⟩,
               ⟨"kept.txt", "kept.txt", false, false, false⟩]).OnlyDeleted = false ∧
    (classify [⟨"gone.txt", "gone.txt", false, false, true⟩,
               ⟨"kept.txt", "kept.txt", false, false, false⟩]).OnlyChanged = false :=
  (only_flags_iff_every_entry _).2.2.2.2
    ⟨"gone.txt", "gone.txt", false, false, true⟩ (by simp)
    ⟨"kept.txt", "kept.txt", false, false, false⟩ (by simp) rfl ⟨rfl, rfl, rfl⟩

/-- C6: `TypeChangedFiles` depends on the paths alone: for every sequence
of diff entries it is the `NewPath` list, in input order, of exactly the
entries whose `Ext OldPath` differs from `Ext NewPath`, and two sequences of
equal length that agree position by position on `OldPath` and `NewPath` give
the same `TypeChangedFiles`, whatever their flags. -/
theorem typeChanged_depends_on_paths_only :
    (∀ Diffs : List Diff,
      (classify Diffs).TypeChangedFiles =
        (Diffs.filter (fun d => decide (Ext d.OldPath ≠ Ext d.NewPath))).map Diff.NewPath) ∧
    (∀ xs ys : List Diff, xs.length = ys.length →
      (∀ (i : Nat) (h₁ : i < xs.length) (h₂ : i < ys.length),
        (xs.get ⟨i, h₁⟩).OldPath = (ys.get ⟨i, h₂⟩).OldPath ∧
        (xs.get ⟨i, h₁⟩).NewPath = (ys.get ⟨i, h₂⟩).NewPath) →
      (classify xs).TypeChangedFiles = (classify ys).TypeChangedFiles) := by
  constructor
  · intro Diffs
    rw [classify_TypeChangedFiles]
    congr 1
    apply List.filter_congr
    intro d _
    rw [Bool.eq_iff_iff, bne_iff_ne, decide_eq_true_iff]
  · intro xs ys hlen hget
    exact typeChanged_congr xs ys (List.forall₂_iff_get.2 ⟨hlen, hget⟩)

/-- C6 at the fourth scenario of the specification: the entry renamed from
`x.txt` to `x.md` is type-changed, and stays so with its flag cleared. -/
theorem typeChanged_ignores_flags_sample :
    (classify [⟨"x.txt", "x.md", false, true, false⟩]).TypeChangedFiles = ["x.md"] ∧
    (classify [⟨"x.txt", "x.md", false, true, false⟩]).TypeChangedFiles =
      (classify [⟨"x.txt", "x.md", true, false, true⟩]).TypeChangedFiles :=
  ⟨by decide,
   typeChanged_depends_on_paths_only.2
    [⟨"x.txt", "x.md", false, true, false⟩] [⟨"x.txt", "x.md", true, false, true⟩] rfl
    (by
      intro i h₁ h₂
      have hi : i = 0 := by simpa using h₁
      subst hi
      exact ⟨rfl, rfl⟩)⟩

/-- C7, against the claim as stated: the entry whose only set flag is
`RenamedFile` has mutually exclusive flags, yet in its turn of the loop it is
appended to none of `AddedFiles`, `ChangedFiles`, `DeletedFiles`, and the
report of the one-entry input has the three lists empty. -/
theorem renamed_only_entry_in_no_trichotomy_list :
    renamedOnlyEntry ∈ [renamedOnlyEntry] ∧
    mutuallyExclusive renamedOnlyEntry = true ∧
    trichotomyCount (classify []) renamedOnlyEntry = 0 ∧
    trichotomyCount (classify []) renamedOnlyEntry ≠ 1 ∧
    (classify [renamedOnlyEntry]).AddedFiles = [] ∧
    (classify [renamedOnlyEntry]).ChangedFiles = [] ∧
    (classify [renamedOnlyEntry]).DeletedFiles = [] ∧
    (classify [renamedOnlyEntry]).RenamedFiles = ["new.txt"] := by
  decide

/-- C7, amended: for every sequence of diff entries `pre ++ d :: post` in
which the entry `d` has at most one of its three flags set, the turn of the
loop on `d` appends its `NewPath` to exactly one of `AddedFiles`,
`ChangedFiles`, `DeletedFiles` when `RenamedFile` is clear and to none of
them when it is set; it appends it to `RenamedFiles` exactly when
`RenamedFile` is set; so it appends it to exactly one of the four lists. -/
theorem exclusive_entry_joins_one_list (pre post : List Diff) (d : Diff)
    (hex : mutuallyExclusive d = true) :
    classify (pre ++ d :: post) = runLoop (loopBody (classify pre) d) post ∧
    trichotomyCount (classify pre) d = (if d.RenamedFile then 0 else 1) ∧
    appendedTo (classify pre).RenamedFiles (loopBody (classify pre) d).RenamedFiles d
      = d.RenamedFile ∧
    trichotomyCount (classify pre) d +
      (appendedTo (classify pre).RenamedFiles
        (loopBody (classify pre) d).RenamedFiles d).toNat = 1 := by
  have hcount : trichotomyCount (classify pre) d =
      d.NewFile.toNat + (changedFile d).toNat + d.DeletedFile.toNat := by
    simp only [trichotomyCount, loopBody, appendedTo_appendIf]
  have hren : appendedTo (classify pre).RenamedFiles
      (loopBody (classify pre) d).RenamedFiles d = d.RenamedFile := by
    simp only [loopBody, appendedTo_appendIf]
  refine ⟨?_, ?_, hren, ?_⟩
  · simp only [classify, runLoop_append, runLoop_cons]
  · rw [hcount]
    cases d with
    | mk op np n r dl =>
      cases n <;> cases r <;> cases dl <;> simp_all [changedFile, mutuallyExclusive]
  · rw [hcount, hren]
    cases d with
    | mk op np n r dl =>
      cases n <;> cases r <;> cases dl <;> simp_all [changedFile, mutuallyExclusive]

/-- C7, amended, at a three-entry input whose middle entry is only renamed. -/
theorem exclusive_entry_joins_one_list_sample :
    mutuallyExclusive renamedOnlyEntry = true ∧
    trichotomyCount (classify [⟨"a.txt", "a.txt", false, false, false⟩]) renamedOnlyEntry +
      (appendedTo (classify [⟨"a.txt", "a.txt", false, false, false⟩]).RenamedFiles
        (loopBody (classify [⟨"a.txt", "a.txt", false, false, false⟩])
          renamedOnlyEntry).RenamedFiles renamedOnlyEntry).toNat = 1 :=
  ⟨by decide,
   (exclusive_entry_joins_one_list [⟨"a.txt", "a.txt", false, false, false⟩]
      [⟨"", "b.py", true, false, false⟩] renamedOnlyEntry (by decide)).2.2.2⟩

/-- C8: for every sequence of diff entries, each of `AddedFiles`,
`ChangedFiles`, `DeletedFiles`, `RenamedFiles`, `TypeChangedFiles` and
`AddedAndChangedFiles` is an order-preserving sublist of `AllFiles`. -/
theorem category_lists_sublists_of_allFiles (Diffs : List Diff) :
    (classify Diffs).AddedFiles.Sublist (classify Diffs).AllFiles ∧
    (classify Diffs).ChangedFiles.Sublist (classify Diffs).AllFiles ∧
    (classify Diffs).DeletedFiles.Sublist (classify Diffs).AllFiles ∧
    (classify Diffs).RenamedFiles.Sublist (classify Diffs).AllFiles ∧
    (classify Diffs).TypeChangedFiles.Sublist (classify Diffs).AllFiles ∧
    (classify Diffs).AddedAndChangedFiles.Sublist (classify Diffs).AllFiles := by
  rw [classify_AllFiles, classify_AddedFiles, classify_ChangedFiles, classify_DeletedFiles,
    classify_RenamedFiles, classify_TypeChangedFiles, classify_AddedAndChangedFiles]
  exact ⟨(List.filter_sublist _).map _, (List.filter_sublist _).map _,
    (List.filter_sublist _).map _, (List.filter_sublist _).map _,
    (List.filter_sublist _).map _, (List.filter_sublist _).map _⟩

/-- C9: for the empty sequence of diff entries the report has its seven
list fields empty, its four `Any` flags false and its four `Only` flags
true. -/
theorem empty_input_report :
    (classify []).AllFiles = [] ∧
    (classify []).AddedAndChangedFiles = [] ∧
    (classify []).AddedFiles = [] ∧
    (classify []).ChangedFiles = [] ∧
    (classify []).DeletedFiles = [] ∧
    (classify []).RenamedFiles = [] ∧
    (classify []).TypeChangedFiles = [] ∧
    (classify []).AnyAdded = false ∧
    (classify []).AnyChanged = false ∧
    (classify []).AnyDeleted = false ∧
    (classify []).AnyRenamed = false ∧
    (classify []).OnlyAdded = true ∧
    (classify []).OnlyChanged = true ∧
    (classify []).OnlyDeleted = true ∧
    (classify []).OnlyRenamed = true :=
  ⟨rfl, rfl, rfl, rfl, rfl, rfl, rfl, rfl, rfl, rfl, rfl, rfl, rfl, rfl, rfl⟩

/-- C10: for every choice of flags and every behaviour of the remote
service, a run whose credential is the empty string ends in a fatal error:
its only effect is the fatal message about the missing variable, it exits
with a non-zero status, and no comparison request (nor anything else) is
issued before or after it. -/
theorem empty_credential_is_fatal_before_compare {Client : Type}
    (remote : Remote Client) (flags : Flags) (gitlabApiToken : String)
    (h : gitlabApiToken = "") :
    (main remote flags gitlabApiToken).effects = [Effect.Fatal missingTokenMessage] ∧
    (main remote flags gitlabApiToken).exitCode ≠ 0 ∧
    (∃ message, (main remote flags gitlabApiToken).effects.getLast? =
      some (Effect.Fatal message)) ∧
    (∀ e ∈ (main remote flags gitlabApiToken).effects, e.isCompare = false) := by
  subst h
  simp [main, Effect.isCompare]

/-- C10 at a remote service that would accept the request: with the empty
credential the comparison is still never requested. -/
theorem empty_credential_sample :
    (main sampleRemote sampleFlags "").effects = [Effect.Fatal missingTokenMessage] ∧
    (main sampleRemote sampleFlags "").exitCode ≠ 0 ∧
    (∃ message, (main sampleRemote sampleFlags "").effects.getLast? =
      some (Effect.Fatal message)) ∧
    (∀ e ∈ (main sampleRemote sampleFlags "").effects, e.isCompare = false) :=
  empty_credential_is_fatal_before_compare sampleRemote sampleFlags "" rfl

/-- C11: for every source branch name, target branch name and error text,
the message of the failed comparison contains the source branch name, the
target branch name and the text of the error; and a run whose credential is
set, whose client is constructed and whose comparison request fails with
that error ends with exactly this message as its fatal error. -/
theorem compare_failure_message_contents {Client : Type} (remote : Remote Client)
    (flags : Flags) (gitlabApiToken : String) (git : Client) (err : String) :
    List.IsInfix flags.sourceBranch.data
      (compareFailedMessage flags.sourceBranch flags.targetBranch err).data ∧
    List.IsInfix flags.targetBranch.data
      (compareFailedMessage flags.sourceBranch flags.targetBranch err).data ∧
    List.IsInfix err.data
      (compareFailedMessage flags.sourceBranch flags.targetBranch err).data ∧
    (gitlabApiToken ≠ "" →
      remote.NewClient gitlabApiToken = Except.ok git →
      remote.Compare git flags.projectId
        { From := flags.sourceBranch, To := flags.targetBranch,
          Straight := flags.isStraight } = Except.error err →
      (main remote flags gitlabApiToken).effects.getLast? =
        some (Effect.Fatal
          (compareFailedMessage flags.sourceBranch flags.targetBranch err)) ∧
      (main remote flags gitlabApiToken).exitCode = 1) := by
  refine ⟨?_, ?_, ?_, ?_⟩
  · refine ⟨"Failed to compare ".data,
      (" with " ++ flags.targetBranch ++ ". Ensure both branches exist. Error: " ++ err).data, ?_⟩
    simp [compareFailedMessage, String.data_append, List.append_assoc]
  · refine ⟨("Failed to compare " ++ flags.sourceBranch ++ " with ").data,
      (". Ensure both branches exist. Error: " ++ err).data, ?_⟩
    simp [compareFailedMessage, String.data_append, List.append_assoc]
  · refine ⟨("Failed to compare " ++ flags.sourceBranch ++ " with " ++ flags.targetBranch ++
      ". Ensure both branches exist. Error: ").data, [], ?_⟩
    simp [compareFailedMessage, String.data_append, List.append_assoc]
  · intro htoken hclient hcompare
    simp [main, htoken, hclient, hcompare]

/-- C11 at a remote service that answers the comparison of `feature` with
`main` by an error: the run ends with the message naming both branches and
the error. -/
theorem compare_failure_message_sample :
    (main failingRemote sampleFlags "glpat-token").effects.getLast? =
      some (Effect.Fatal
        "Failed to compare feature with main. Ensure both branches exist. Error: 404 Project Not Found") ∧
    (main failingRemote sampleFlags "glpat-token").exitCode = 1 :=
  (compare_failure_message_contents failingRemote sampleFlags "glpat-token" ()
    "404 Project Not Found").2.2.2 (by decide) rfl rfl

/-- C12, against the claim as stated: at a remote service that accepts the
credential and answers the comparison successfully with an entry followed by
a nil one, the credential is non-empty, the client is constructed and the
comparison request succeeds, yet the run panics in the loop: it writes
nothing to standard output and exits with status 2. -/
theorem null_entry_run_prints_nothing :
    "glpat-token" ≠ "" ∧
    nullEntryRemote.NewClient "glpat-token" = Except.ok () ∧
    nullEntryRemote.Compare () sampleFlags.projectId
      { From := sampleFlags.sourceBranch, To := sampleFlags.targetBranch,
        Straight := sampleFlags.isStraight } =
      Except.ok [some ⟨"a.txt", "a.txt", false, false, false⟩, none] ∧
    (¬ ∃ e ∈ (main nullEntryRemote sampleFlags "glpat-token").effects, e.isPrintln = true) ∧
    (main nullEntryRemote sampleFlags "glpat-token").printed = [] ∧
    (main nullEntryRemote sampleFlags "glpat-token").effects.getLast? =
      some (Effect.Panic nilDereferenceMessage) ∧
    (main nullEntryRemote sampleFlags "glpat-token").exitCode = 2 := by
  refine ⟨by decide, rfl, rfl, ?_, by decide, by decide, by decide⟩
  rintro ⟨e, he, hp⟩
  have hm : (main nullEntryRemote sampleFlags "glpat-token").effects =
      [Effect.NewClient "glpat-token",
       Effect.Compare 42 { From := "feature", To := "main", Straight := false },
       Effect.Panic nilDereferenceMessage] := by decide
  rw [hm] at he
  simp only [List.mem_cons, List.mem_singleton, List.not_mem_nil, or_false] at he
  rcases he with he | he | he <;> subst he <;> cases hp

/-- C12, amended: for every run, a report is written to standard output if
and only if the credential is non-empty, the client is constructed, the
comparison request succeeds and no entry of the answer is nil, and it is
then the report of the entries received, written once, with exit status 0;
a run with the credential missing, with the client construction failing or
with the comparison failing writes nothing to standard output and exits
with a non-zero status, and so does a run whose answer holds a nil entry. -/
theorem report_printed_iff_all_steps_succeed {Client : Type} (remote : Remote Client)
    (flags : Flags) (gitlabApiToken : String) :
    ((∃ e ∈ (main remote flags gitlabApiToken).effects, e.isPrintln = true) ↔
      (gitlabApiToken ≠ "" ∧ ∃ git, remote.NewClient gitlabApiToken = Except.ok git ∧
        ∃ Diffs, remote.Compare git flags.projectId
          { From := flags.sourceBranch, To := flags.targetBranch,
            Straight := flags.isStraight } = Except.ok Diffs ∧ none ∉ Diffs)) ∧
    (∀ (git : Client) (Diffs : List Diff), gitlabApiToken ≠ "" →
      remote.NewClient gitlabApiToken = Except.ok git →
      remote.Compare git flags.projectId
        { From := flags.sourceBranch, To := flags.targetBranch,
          Straight := flags.isStraight } = Except.ok (Diffs.map some) →
      (main remote flags gitlabApiToken).printed = [Effect.Println (classify Diffs)] ∧
      (main remote flags gitlabApiToken).exitCode = 0) ∧
    (gitlabApiToken = "" →
      (main remote flags gitlabApiToken).printed = [] ∧
      (main remote flags gitlabApiToken).exitCode ≠ 0) ∧
    (∀ err, remote.NewClient gitlabApiToken = Except.error err →
      (main remote flags gitlabApiToken).printed = [] ∧
      (main remote flags gitlabApiToken).exitCode ≠ 0) ∧
    (∀ git err, remote.NewClient gitlabApiToken = Except.ok git →
      remote.Compare git flags.projectId
        { From := flags.sourceBranch, To := flags.targetBranch,
          Straight := flags.isStraight } = Except.error err →
      (main remote flags gitlabApiToken).printed = [] ∧
      (main remote flags gitlabApiToken).exitCode ≠ 0) ∧
    (∀ git Diffs, remote.NewClient gitlabApiToken = Except.ok git →
      remote.Compare git flags.projectId
        { From := flags.sourceBranch, To := flags.targetBranch,
          Straight := flags.isStraight } = Except.ok Diffs →
      none ∈ Diffs →
      (main remote flags gitlabApiToken).printed = [] ∧
      (main remote flags gitlabApiToken).exitCode ≠ 0) := by
  by_cases htoken : gitlabApiToken = ""
  · have hm : main remote flags gitlabApiToken =
        { effects := [Effect.Fatal missingTokenMessage], exitCode := 1 } := by
      simp [main, htoken]
    rw [hm]
    refine ⟨?_, ?_, ?_, ?_, ?_, ?_⟩
    · constructor
      · rintro ⟨e, he, hp⟩
        simp only [List.mem_singleton] at he
        subst he
        cases hp
      · rintro ⟨h, _⟩
        exact absurd htoken h
    · intro _ _ h
      exact absurd htoken h
    · intro _
      exact ⟨rfl, Nat.one_ne_zero⟩
    · intro _ _
      exact ⟨rfl, Nat.one_ne_zero⟩
    · intro _ _ _ _
      exact ⟨rfl, Nat.one_ne_zero⟩
    · intro _ _ _ _ _
      exact ⟨rfl, Nat.one_ne_zero⟩
  · cases hclient : remote.NewClient gitlabApiToken with
    | error err =>
      have hm : main remote flags gitlabApiToken =
          { effects := [Effect.NewClient gitlabApiToken,
                        Effect.Fatal (clientFailedMessage err)],
            exitCode := 1 } := by
        simp [main, htoken, hclient]
      rw [hm]
      refine ⟨?_, ?_, ?_, ?_, ?_, ?_⟩
      · constructor
        · rintro ⟨e, he, hp⟩
          simp only [List.mem_cons, List.mem_singleton, List.not_mem_nil, or_false] at he
          rcases he with he | he <;> subst he <;> cases hp
        · rintro ⟨_, g, hg, _⟩
          cases hg
      · intro _ _ _ hg
        cases hg
      · intro h
        exact absurd h htoken
      · intro _ _
        exact ⟨rfl, Nat.one_ne_zero⟩
      · intro _ _ hg
        cases hg
      · intro _ _ hg
        cases hg
    | ok git =>
      cases hcompare : remote.Compare git flags.projectId
        { From := flags.sourceBranch, To := flags.targetBranch,
          Straight := flags.isStraight } with
      | error err =>
        have hm : main remote flags gitlabApiToken =
            { effects := [Effect.NewClient gitlabApiToken,
                          Effect.Compare flags.projectId
                            { From := flags.sourceBranch, To := flags.targetBranch,
                              Straight := flags.isStraight },
                          Effect.Fatal
                            (compareFailedMessage flags.sourceBranch flags.targetBranch err)],
              exitCode := 1 } := by
          simp [main, htoken, hclient, hcompare]
        rw [hm]
        refine ⟨?_, ?_, ?_, ?_, ?_, ?_⟩
        · constructor
          · rintro ⟨e, he, hp⟩
            simp only [List.mem_cons, List.mem_singleton, List.not_mem_nil, or_false] at he
            rcases he with he | he | he <;> subst he <;> cases hp
          · rintro ⟨_, g, hg, D, hD, _⟩
            cases hg
            rw [hcompare] at hD
            cases hD
        · intro g D _ hg hD
          cases hg
          rw [hcompare] at hD
          cases hD
        · intro h
          exact absurd h htoken
        · intro _ hg
          cases hg
        · intro _ _ _ _
          exact ⟨rfl, Nat.one_ne_zero⟩
        · intro g D hg hD
          cases hg
          rw [hcompare] at hD
          cases hD
      | ok Ds =>
        by_cases hnil : none ∈ Ds
        · have hr := rangeDiffs_of_mem_none Ds initial hnil
          have hm : main remote flags gitlabApiToken =
              { effects := [Effect.NewClient gitlabApiToken,
                            Effect.Compare flags.projectId
                              { From := flags.sourceBranch, To := flags.targetBranch,
                                Straight := flags.isStraight },
                            Effect.Panic nilDereferenceMessage],
                exitCode := 2 } := by
            simp [main, htoken, hclient, hcompare, hr]
          rw [hm]
          refine ⟨?_, ?_, ?_, ?_, ?_, ?_⟩
          · constructor
            · rintro ⟨e, he, hp⟩
              simp only [List.mem_cons, List.mem_singleton, List.not_mem_nil, or_false] at he
              rcases he with he | he | he <;> subst he <;> cases hp
            · rintro ⟨_, g, hg, D, hD, hn⟩
              cases hg
              rw [hcompare] at hD
              cases hD
              exact absurd hnil hn
          · intro g D _ hg hD
            cases hg
            rw [hcompare] at hD
            cases hD
            exact absurd hnil (not_mem_none_map_some D)
          · intro h
            exact absurd h htoken
          · intro _ hg
            cases hg
          · intro g e hg hD
            cases hg
            rw [hcompare] at hD
            cases hD
          · intro _ _ _ _ _
            exact ⟨rfl, Nat.succ_ne_zero 1⟩
        · obtain ⟨ds, hds⟩ := exists_map_some_of_not_mem_none Ds hnil
          subst hds
          have hr := rangeDiffs_map_some ds initial
          have hm : main remote flags gitlabApiToken =
              { effects := [Effect.NewClient gitlabApiToken,
                            Effect.Compare flags.projectId
                              { From := flags.sourceBranch, To := flags.targetBranch,
                                Straight := flags.isStraight },
                            Effect.Println (classify ds)],
                exitCode := 0 } := by
            simp [main, htoken, hclient, hcompare, hr, classify]
          rw [hm]
          refine ⟨?_, ?_, ?_, ?_, ?_, ?_⟩
          · constructor
            · intro _
              exact ⟨htoken, git, rfl, ds.map some, hcompare, hnil⟩
            · intro _
              exact ⟨Effect.Println (classify ds), by simp, rfl⟩
          · intro g D _ hg hD
            cases hg
            rw [hcompare] at hD
            have hD2 : ds.map some = D.map some := Except.ok.inj hD
            have hD3 : ds = D := List.map_injective_iff.2 (Option.some_injective Diff) hD2
            subst hD3
            exact ⟨rfl, rfl⟩
          · intro h
            exact absurd h htoken
          · intro _ hg
            cases hg
          · intro g e hg hD
            cases hg
            rw [hcompare] at hD
            cases hD
          · intro g D hg hD hn
            cases hg
            rw [hcompare] at hD
            cases hD
            exact absurd hn hnil

/-- C12, amended, on five runs: the successful one prints the report of the
two entries received; the runs with the credential missing, the client
broken, the comparison failing or a nil entry in the answer print nothing. -/
theorem report_printed_samples :
    (main sampleRemote sampleFlags "glpat-token").printed =
      [Effect.Println (classify
        [⟨"a.txt", "a.txt", false, false, false⟩, ⟨"b.py", "b.py", true, false, false⟩])] ∧
    (main sampleRemote sampleFlags "").printed = [] ∧
    (main brokenRemote sampleFlags "glpat-token").printed = [] ∧
    (main failingRemote sampleFlags "glpat-token").printed = [] ∧
    (main nullEntryRemote sampleFlags "glpat-token").printed = [] :=
  ⟨((report_printed_iff_all_steps_succeed sampleRemote sampleFlags "glpat-token").2.1 ()
      [⟨"a.txt", "a.txt", false, false, false⟩, ⟨"b.py", "b.py", true, false, false⟩]
      (by decide) rfl rfl).1,
   ((report_printed_iff_all_steps_succeed sampleRemote sampleFlags "").2.2.1 rfl).1,
   ((report_printed_iff_all_steps_succeed brokenRemote sampleFlags "glpat-token").2.2.2.1
      "invalid base URL" rfl).1,
   ((report_printed_iff_all_steps_succeed failingRemote sampleFlags "glpat-token").2.2.2.2.1 ()
      "404 Project Not Found" rfl rfl).1,
   ((report_printed_iff_all_steps_succeed nullEntryRemote sampleFlags "glpat-token").2.2.2.2.2 ()
      [some ⟨"a.txt", "a.txt", false, false, false⟩, none] rfl rfl (by simp)).1⟩

/-- C13: classification is entry-wise independent: for all entry sequences
`xs` and `ys` the report of `xs ++ ys` is the combination of the report of
`xs` with the report of `ys` (list fields concatenated, `Any` flags or-ed,
`Only` flags and-ed, spelled out field by field), and the report of the
empty sequence is a left and right identity of the combination. -/
theorem classify_append_combines (xs ys : List Diff) :
    classify (xs ++ ys) = combine (classify xs) (classify ys) ∧
    ((classify (xs ++ ys)).AllFiles = (classify xs).AllFiles ++ (classify ys).AllFiles ∧
     (classify (xs ++ ys)).AddedAndChangedFiles =
       (classify xs).AddedAndChangedFiles ++ (classify ys).AddedAndChangedFiles ∧
     (classify (xs ++ ys)).AddedFiles = (classify xs).AddedFiles ++ (classify ys).AddedFiles ∧
     (classify (xs ++ ys)).ChangedFiles =
       (classify xs).ChangedFiles ++ (classify ys).ChangedFiles ∧
     (classify (xs ++ ys)).DeletedFiles =
       (classify xs).DeletedFiles ++ (classify ys).DeletedFiles ∧
     (classify (xs ++ ys)).RenamedFiles =
       (classify xs).RenamedFiles ++ (classify ys).RenamedFiles ∧
     (classify (xs ++ ys)).TypeChangedFiles =
       (classify xs).TypeChangedFiles ++ (classify ys).TypeChangedFiles) ∧
    ((classify (xs ++ ys)).AnyAdded = ((classify xs).AnyAdded || (classify ys).AnyAdded) ∧
     (classify (xs ++ ys)).AnyChanged = ((classify xs).AnyChanged || (classify ys).AnyChanged) ∧
     (classify (xs ++ ys)).AnyDeleted = ((classify xs).AnyDeleted || (classify ys).AnyDeleted) ∧
     (classify (xs ++ ys)).AnyRenamed =
       ((classify xs).AnyRenamed || (classify ys).AnyRenamed)) ∧
    ((classify (xs ++ ys)).OnlyAdded = ((classify xs).OnlyAdded && (classify ys).OnlyAdded) ∧
     (classify (xs ++ ys)).OnlyChanged =
       ((classify xs).OnlyChanged && (classify ys).OnlyChanged) ∧
     (classify (xs ++ ys)).OnlyDeleted =
       ((classify xs).OnlyDeleted && (classify ys).OnlyDeleted) ∧
     (classify (xs ++ ys)).OnlyRenamed =
       ((classify xs).OnlyRenamed && (classify ys).OnlyRenamed)) ∧
    (∀ o : Output, combine (classify []) o = o ∧ combine o (classify []) = o) := by
  have h : classify (xs ++ ys) = combine (classify xs) (classify ys) := by
    rw [classify, runLoop_append, runLoop_eq_combine]
    rfl
  refine ⟨h, ?_, ?_, ?_, ?_⟩
  · rw [h]
    exact ⟨rfl, rfl, rfl, rfl, rfl, rfl, rfl⟩
  · rw [h]
    exact ⟨rfl, rfl, rfl, rfl⟩
  · rw [h]
    exact ⟨rfl, rfl, rfl, rfl⟩
  · intro o
    exact ⟨combine_initial_left o, combine_initial_right o⟩

/-- C14: the extension used by the type-change check is, for every path,
the suffix starting at the last dot of the final slash-separated segment, and
empty when that segment has no dot: `Ext` agrees with `specExtension`, whose
two parts are what their names say (`finalSegment` is the slash-free end of
the path that follows a slash or is the whole path; `lastDotSuffix` is empty
for a segment without dot and else the dot-free end of the segment together
with the dot before it).  So `dir.v1/README` has the empty extension,
`.gitignore` has the extension `.gitignore`, and an entry is appended to
`TypeChangedFiles` in its turn iff the two extensions differ. -/
theorem ext_is_last_dot_suffix_of_final_segment :
    (∀ path : String, Ext path = specExtension path) ∧
    (∀ path : List Char, ∃ before,
      path = before ++ finalSegment path ∧ '/' ∉ finalSegment path ∧
      (before = [] ∨ ∃ dir, before = dir ++ ['/'])) ∧
    (∀ segment : List Char, '.' ∉ segment → lastDotSuffix segment = []) ∧
    (∀ segment : List Char, '.' ∈ segment →
      ∃ stem rest, segment = stem ++ '.' :: rest ∧ '.' ∉ rest ∧
        lastDotSuffix segment = '.' :: rest) ∧
    Ext "dir.v1/README" = "" ∧
    Ext ".gitignore" = ".gitignore" ∧
    (∀ (o : Output) (d : Diff),
      appendedTo o.TypeChangedFiles (loopBody o d).TypeChangedFiles d = true ↔
        specExtension d.OldPath ≠ specExtension d.NewPath) := by
  refine ⟨Ext_eq_specExtension, ?_, ?_, ?_, by decide, by decide, ?_⟩
  · intro path
    obtain ⟨hnot, hsplit⟩ := takeWhile_ne_split '/' path.reverse
    rcases hsplit with ⟨_, he⟩ | ⟨rest, he⟩
    · refine ⟨[], ?_, ?_, Or.inl rfl⟩
      · simp [finalSegment, he]
      · simpa [finalSegment] using hnot
    · refine ⟨rest.reverse ++ ['/'], ?_, ?_, Or.inr ⟨rest.reverse, rfl⟩⟩
      · have h2 := congrArg List.reverse he
        simp only [List.reverse_reverse, List.reverse_append, List.reverse_cons] at h2
        simpa [finalSegment] using h2
      · simpa [finalSegment] using hnot
  · intro segment h
    simp [lastDotSuffix, h]
  · intro segment h
    obtain ⟨hnot, hsplit⟩ := takeWhile_ne_split '.' segment.reverse
    rcases hsplit with ⟨hn, _⟩ | ⟨rest, he⟩
    · exact absurd (List.mem_reverse.2 h) hn
    · refine ⟨rest.reverse, (segment.reverse.takeWhile (fun c => c != '.')).reverse, ?_, ?_, ?_⟩
      · have h2 := congrArg List.reverse he
        simp only [List.reverse_reverse, List.reverse_append, List.reverse_cons] at h2
        simpa using h2
      · simpa using hnot
      · simp [lastDotSuffix, h]
  · intro o d
    have h : appendedTo o.TypeChangedFiles (loopBody o d).TypeChangedFiles d =
        (Ext d.OldPath != Ext d.NewPath) := by
      simp only [loopBody, appendedTo_appendIf]
    rw [h, bne_iff_ne, Ext_eq_specExtension, Ext_eq_specExtension]

/-- C15: for every non-empty sequence of diff entries whose report has
`OnlyChanged` true, the flags `OnlyAdded`, `OnlyDeleted`, `OnlyRenamed` are
false, the flags `AnyAdded`, `AnyDeleted`, `AnyRenamed` are false, the lists
`AddedFiles`, `DeletedFiles`, `RenamedFiles` are empty, and `ChangedFiles`
and `AddedAndChangedFiles` both equal `AllFiles`. -/
theorem onlyChanged_report (Diffs : List Diff) (hne : Diffs ≠ [])
    (honly : (classify Diffs).OnlyChanged = true) :
    ((classify Diffs).OnlyAdded = false ∧ (classify Diffs).OnlyDeleted = false ∧
      (classify Diffs).OnlyRenamed = false) ∧
    ((classify Diffs).AnyAdded = false ∧ (classify Diffs).AnyDeleted = false ∧
      (classify Diffs).AnyRenamed = false) ∧
    ((classify Diffs).AddedFiles = [] ∧ (classify Diffs).DeletedFiles = [] ∧
      (classify Diffs).RenamedFiles = []) ∧
    (classify Diffs).ChangedFiles = (classify Diffs).AllFiles ∧
    (classify Diffs).AddedAndChangedFiles = (classify Diffs).AllFiles := by
  obtain ⟨hoa, hoc, hod, hor⟩ := classify_only Diffs
  obtain ⟨haa, _, had, har⟩ := classify_any Diffs
  rw [hoc, List.all_eq_true] at honly
  have hflags : ∀ d ∈ Diffs,
      d.NewFile = false ∧ d.DeletedFile = false ∧ d.RenamedFile = false :=
    fun d hd => (changedFile_eq_true d).1 (honly d hd)
  obtain ⟨d₀, rest, hd₀⟩ := List.exists_cons_of_ne_nil hne
  have hmem : d₀ ∈ Diffs := by rw [hd₀]; exact List.mem_cons_self _ _
  obtain ⟨hn₀, hdl₀, hr₀⟩ := hflags d₀ hmem
  refine ⟨⟨?_, ?_, ?_⟩, ⟨?_, ?_, ?_⟩, ⟨?_, ?_, ?_⟩, ?_, ?_⟩
  · rw [hoa, hd₀, List.all_cons, hn₀, Bool.false_and]
  · rw [hod, hd₀, List.all_cons, hdl₀, Bool.false_and]
  · rw [hor, hd₀, List.all_cons, hr₀, Bool.false_and]
  · rw [haa, List.any_eq_false]
    intro d hd
    simp [(hflags d hd).1]
  · rw [had, List.any_eq_false]
    intro d hd
    simp [(hflags d hd).2.1]
  · rw [har, List.any_eq_false]
    intro d hd
    simp [(hflags d hd).2.2]
  · rw [classify_AddedFiles, List.map_eq_nil_iff, List.filter_eq_nil_iff]
    intro d hd
    simp [(hflags d hd).1]
  · rw [classify_DeletedFiles, List.map_eq_nil_iff, List.filter_eq_nil_iff]
    intro d hd
    simp [(hflags d hd).2.1]
  · rw [classify_RenamedFiles, List.map_eq_nil_iff, List.filter_eq_nil_iff]
    intro d hd
    simp [(hflags d hd).2.2]
  · rw [classify_ChangedFiles, classify_AllFiles, List.filter_eq_self.2 honly]
  · rw [classify_AddedAndChangedFiles, classify_AllFiles, List.filter_eq_self.2]
    intro d hd
    simp [honly d hd]

/-- C15 at the first scenario of the specification: one entry `a.txt` with
no flag set. -/
theorem onlyChanged_report_sample :
    (classify [plainChangedEntry]).OnlyAdded = false ∧
    (classify [plainChangedEntry]).AnyRenamed = false ∧
    (classify [plainChangedEntry]).DeletedFiles = [] ∧
    (classify [plainChangedEntry]).ChangedFiles = (classify [plainChangedEntry]).AllFiles ∧
    (classify [plainChangedEntry]).AllFiles = ["a.txt"] :=
  have h := onlyChanged_report [plainChangedEntry] (by decide) (by decide)
  ⟨h.1.1, h.2.1.2.2, h.2.2.1.2.1, h.2.2.2.1, by decide⟩

/-- C16: for every non-empty sequence of diff entries each `Only` flag
implies the matching `Any` flag; whenever an `Only` flag is true the matching
category list equals `AllFiles`; and some `Only` flag is true while its `Any`
flag is false exactly for the empty sequence. -/
theorem only_implies_any_unless_empty (Diffs : List Diff) :
    (Diffs ≠ [] →
      ((classify Diffs).OnlyAdded = true → (classify Diffs).AnyAdded = true) ∧
      ((classify Diffs).OnlyChanged = true → (classify Diffs).AnyChanged = true) ∧
      ((classify Diffs).OnlyDeleted = true → (classify Diffs).AnyDeleted = true) ∧
      ((classify Diffs).OnlyRenamed = true → (classify Diffs).AnyRenamed = true)) ∧
    (((classify Diffs).OnlyAdded = true →
        (classify Diffs).AddedFiles = (classify Diffs).AllFiles) ∧
     ((classify Diffs).OnlyChanged = true →
        (classify Diffs).ChangedFiles = (classify Diffs).AllFiles) ∧
     ((classify Diffs).OnlyDeleted = true →
        (classify Diffs).DeletedFiles = (classify Diffs).AllFiles) ∧
     ((classify Diffs).OnlyRenamed = true →
        (classify Diffs).RenamedFiles = (classify Diffs).AllFiles)) ∧
    ((((classify Diffs).OnlyAdded = true ∧ (classify Diffs).AnyAdded = false) ∨
      ((classify Diffs).OnlyChanged = true ∧ (classify Diffs).AnyChanged = false) ∨
      ((classify Diffs).OnlyDeleted = true ∧ (classify Diffs).AnyDeleted = false) ∨
      ((classify Diffs).OnlyRenamed = true ∧ (classify Diffs).AnyRenamed = false)) ↔
      Diffs = []) := by
  obtain ⟨hoa, hoc, hod, hor⟩ := classify_only Diffs
  obtain ⟨haa, hac, had, har⟩ := classify_any Diffs
  have himp : Diffs ≠ [] →
      ((classify Diffs).OnlyAdded = true → (classify Diffs).AnyAdded = true) ∧
      ((classify Diffs).OnlyChanged = true → (classify Diffs).AnyChanged = true) ∧
      ((classify Diffs).OnlyDeleted = true → (classify Diffs).AnyDeleted = true) ∧
      ((classify Diffs).OnlyRenamed = true → (classify Diffs).AnyRenamed = true) := by
    intro hne
    rw [hoa, hoc, hod, hor, haa, hac, had, har]
    exact ⟨any_of_all_of_ne_nil _ Diffs hne, any_of_all_of_ne_nil _ Diffs hne,
      any_of_all_of_ne_nil _ Diffs hne, any_of_all_of_ne_nil _ Diffs hne⟩
  refine ⟨himp, ⟨?_, ?_, ?_, ?_⟩, ?_⟩
  · intro h
    rw [hoa] at h
    rw [classify_AddedFiles, classify_AllFiles, List.filter_eq_self.2 (List.all_eq_true.1 h)]
  · intro h
    rw [hoc] at h
    rw [classify_ChangedFiles, classify_AllFiles, List.filter_eq_self.2 (List.all_eq_true.1 h)]
  · intro h
    rw [hod] at h
    rw [classify_DeletedFiles, classify_AllFiles, List.filter_eq_self.2 (List.all_eq_true.1 h)]
  · intro h
    rw [hor] at h
    rw [classify_RenamedFiles, classify_AllFiles, List.filter_eq_self.2 (List.all_eq_true.1 h)]
  · constructor
    · intro h
      by_contra hne
      obtain ⟨h1, h2, h3, h4⟩ := himp hne
      rcases h with ⟨ho, ha⟩ | ⟨ho, ha⟩ | ⟨ho, ha⟩ | ⟨ho, ha⟩
      · rw [h1 ho] at ha; cases ha
      · rw [h2 ho] at ha; cases ha
      · rw [h3 ho] at ha; cases ha
      · rw [h4 ho] at ha; cases ha
    · intro h
      subst h
      exact Or.inl ⟨rfl, rfl⟩

/-- C16 at a two-entry input of new files: `OnlyAdded` holds, so does
`AnyAdded`, and `AddedFiles` is `AllFiles`. -/
theorem only_implies_any_sample :
    (classify [⟨"", "b.py", true, false, false⟩, ⟨"", "c.py", true, false, false⟩]).AnyAdded
      = true ∧
    (classify [⟨"", "b.py", true, false, false⟩, ⟨"", "c.py", true, false, false⟩]).AddedFiles
      = (classify
          [⟨"", "b.py", true, false, false⟩, ⟨"", "c.py", true, false, false⟩]).AllFiles :=
  ⟨((only_implies_any_unless_empty
      [⟨"", "b.py", true, false, false⟩, ⟨"", "c.py", true, false, false⟩]).1
      (by decide)).1 (by decide),
   (only_implies_any_unless_empty
      [⟨"", "b.py", true, false, false⟩, ⟨"", "c.py", true, false, false⟩]).2.1.1
      (by decide)⟩

/-- C17: for every sequence of diff entries, every entry is appended in its
turn to at least one of `AddedFiles`, `ChangedFiles`, `DeletedFiles`,
`RenamedFiles`, so the four lengths add up to at least the length of
`AllFiles`, with equality iff every entry has at most one of its three flags
set; and an entry appended to `ChangedFiles` is appended to none of the other
three. -/
theorem every_entry_in_some_category (Diffs : List Diff) :
    (∀ pre d post, Diffs = pre ++ d :: post → 1 ≤ categoryCount (classify pre) d) ∧
    (classify Diffs).AllFiles.length ≤
      (classify Diffs).AddedFiles.length + (classify Diffs).ChangedFiles.length +
      (classify Diffs).DeletedFiles.length + (classify Diffs).RenamedFiles.length ∧
    ((classify Diffs).AddedFiles.length + (classify Diffs).ChangedFiles.length +
      (classify Diffs).DeletedFiles.length + (classify Diffs).RenamedFiles.length =
        (classify Diffs).AllFiles.length ↔
      ∀ d ∈ Diffs, mutuallyExclusive d = true) ∧
    (∀ pre d post, Diffs = pre ++ d :: post →
      appendedTo (classify pre).ChangedFiles (loopBody (classify pre) d).ChangedFiles d = true →
      appendedTo (classify pre).AddedFiles (loopBody (classify pre) d).AddedFiles d = false ∧
      appendedTo (classify pre).DeletedFiles
        (loopBody (classify pre) d).DeletedFiles d = false ∧
      appendedTo (classify pre).RenamedFiles
        (loopBody (classify pre) d).RenamedFiles d = false) := by
  have hlen := category_filters_length Diffs
  refine ⟨?_, ?_, ?_, ?_⟩
  · intro pre d post _
    rw [categoryCount_eq]
    cases d with
    | mk op np n r dl => cases n <;> cases r <;> cases dl <;> simp [changedFile]
  · rw [classify_AllFiles, classify_AddedFiles, classify_ChangedFiles, classify_DeletedFiles,
      classify_RenamedFiles]
    simp only [List.length_map]
    exact hlen.1
  · rw [classify_AllFiles, classify_AddedFiles, classify_ChangedFiles, classify_DeletedFiles,
      classify_RenamedFiles]
    simp only [List.length_map]
    exact hlen.2
  · intro pre d post _ h
    simp only [loopBody, appendedTo_appendIf] at h ⊢
    obtain ⟨hn, hd, hr⟩ := (changedFile_eq_true d).1 h
    exact ⟨hn, hd, hr⟩

/-- C17 at a two-entry input whose second entry is both new and renamed:
that entry joins two lists, so the four lengths add up to three while
`AllFiles` has two elements. -/
theorem every_entry_in_some_category_sample :
    1 ≤ categoryCount (classify [plainChangedEntry]) newAndRenamedEntry ∧
    categoryCount (classify [plainChangedEntry]) newAndRenamedEntry = 2 ∧
    (classify [plainChangedEntry, newAndRenamedEntry]).AddedFiles.length +
      (classify [plainChangedEntry, newAndRenamedEntry]).ChangedFiles.length +
      (classify [plainChangedEntry, newAndRenamedEntry]).DeletedFiles.length +
      (classify [plainChangedEntry, newAndRenamedEntry]).RenamedFiles.length = 3 ∧
    (classify [plainChangedEntry, newAndRenamedEntry]).AllFiles.length = 2 :=
  ⟨(every_entry_in_some_category [plainChangedEntry, newAndRenamedEntry]).1
      [plainChangedEntry] newAndRenamedEntry [] rfl,
   by decide, by decide, by decide⟩

end GitlabChangedFiles
